import Mathlib

/-!
# Verification of the gw-repo client extraction pipeline

Shallow embedding of `src/client.py` (the provenance extraction and
submission client): unit parsers (`duration_to_seconds`,
`parse_memory_value`), process-id derivation (`extract_process_id`),
trace extraction (`get_process_execution_data`), log extraction
(`get_nextflow_log`), directory fingerprinting
(`get_directory_xxhash128`), provenance extraction
(`get_provenance_data`) and the submission driver (`submit`).

Python strings are modelled as `String`/`List Char`; IEEE-754 floats as
`Rat` (every numeric value exercised by the properties below is exactly
representable); a Python exception is `Option.none`/`Except.error`;
external collaborators (the xxhash library, the filesystem, the HTTP
server, the `nextflow log` subprocess) are explicit parameters.
-/

namespace GwRepo

/-- ASCII whitespace as recognised by Python's `str.strip`, `str.split`
and the regex class `\s` (the client only ever meets ASCII input). -/
def isPySpace (c : Char) : Bool :=
  c = ' ' ∨ c = '\t' ∨ c = '\n' ∨ c = '\r' ∨ c = '\x0b' ∨ c = '\x0c'

/-- Python `str.strip()` on a character list. -/
def pyStrip (cs : List Char) : List Char :=
  ((cs.dropWhile isPySpace).reverse.dropWhile isPySpace).reverse

/-- Python `str.strip()`. -/
def pyStripStr (s : String) : String :=
  ⟨pyStrip s.data⟩

/-- Python `str.rstrip(c)` for a single strip character: remove every
trailing occurrence of `c`. -/
def pyRstrip (c : Char) (s : String) : String :=
  ⟨(s.data.reverse.dropWhile (· = c)).reverse⟩

/-- Python `str.upper()` (ASCII input). -/
def pyUpper (s : String) : String :=
  ⟨s.data.map Char.toUpper⟩

/-- Helper of `pySplitSep`: accumulates the current (reversed) field. -/
def pySplitSepAux (sep : Char) : List Char → List Char → List (List Char)
  | [], acc => [acc.reverse]
  | c :: r, acc =>
    if c = sep then acc.reverse :: pySplitSepAux sep r []
    else pySplitSepAux sep r (c :: acc)

/-- Python `str.split(sep)` for a one-character separator (the client
only splits on `"\t"` and `"\n"`): split at every occurrence, keeping
empty fields. -/
def pySplitSep (sep : Char) (s : String) : List String :=
  (pySplitSepAux sep s.data []).map (fun l => ⟨l⟩)

/-- `Option.bind`, kept out of line (the long fallible extraction
chains below otherwise make the code generator duplicate their case
trees exponentially). -/
@[noinline] def obind {α β : Type} (x : Option α) (f : α → Option β) : Option β :=
  Option.bind x f

/-- Numeric value of a digit run (most significant first). -/
def digitsVal (ds : List Char) : Nat :=
  ds.foldl (fun a c => a * 10 + (c.toNat - 48)) 0

/-- Python `int(s)` on a string: optional surrounding whitespace,
optional sign, then one or more decimal digits.  `none` models the
`ValueError` raised on anything else. -/
def pyInt? (s : String) : Option Int :=
  let cs := pyStrip s.data
  let core : List Char → Option Int := fun ds =>
    if ds ≠ [] ∧ ds.all Char.isDigit then some (digitsVal ds) else none
  match cs with
  | '+' :: r => core r
  | '-' :: r => (core r).map Neg.neg
  | _ => core cs

/-- Mantissa part of Python `float(s)`: `digits [. digits]` or
`. digits`, returning its value and the unconsumed remainder. -/
def pyFloatMantissa (cs : List Char) : Option (Rat × List Char) :=
  let ip := cs.takeWhile Char.isDigit
  let r1 := cs.dropWhile Char.isDigit
  match r1 with
  | '.' :: r2 =>
    let fp := r2.takeWhile Char.isDigit
    let r3 := r2.dropWhile Char.isDigit
    if ip.isEmpty ∧ fp.isEmpty then none
    else some ((digitsVal ip : Rat) + (digitsVal fp : Rat) / (10 : Rat) ^ fp.length, r3)
  | _ => if ip.isEmpty then none else some ((digitsVal ip : Rat), r1)

/-- Exponent suffix of Python `float(s)`: empty, or `(e|E) [sign] digits`. -/
def pyFloatExp (m : Rat) (cs : List Char) : Option Rat :=
  match cs with
  | [] => some m
  | e :: r =>
    if e = 'e' ∨ e = 'E' then
      let signAndDigits : Bool × List Char :=
        match r with
        | '+' :: r' => (false, r')
        | '-' :: r' => (true, r')
        | _ => (false, r)
      let neg := signAndDigits.1
      let ds := signAndDigits.2
      if ds ≠ [] ∧ ds.all Char.isDigit then
        some (if neg then m / (10 : Rat) ^ digitsVal ds else m * (10 : Rat) ^ digitsVal ds)
      else none
    else none

/-- Python `float(s)` on finite decimal literals: optional surrounding
whitespace, optional sign, mantissa, optional exponent.  (`inf`/`nan`
and underscore digit separators are not modelled; no property of the
client depends on them.)  `none` models the `ValueError`. -/
def pyFloat? (s : String) : Option Rat :=
  let cs := pyStrip s.data
  let core : List Char → Option Rat := fun cs =>
    match pyFloatMantissa cs with
    | none => none
    | some (m, rest) => pyFloatExp m rest
  match cs with
  | '+' :: r => core r
  | '-' :: r => (core r).map Neg.neg
  | _ => core cs

/-! ## Duration parsing (`duration_to_seconds`) -/

/-- Greedy match of the regex number token `\d+\.?\d*` at the head of
`cs`: the matched token and the remainder, or `none` when no digit
starts the input. -/
def munchNum (cs : List Char) : Option (List Char × List Char) :=
  let ds := cs.takeWhile Char.isDigit
  let r1 := cs.dropWhile Char.isDigit
  if ds.isEmpty then none
  else if r1.head? = some '.' then
    some (ds ++ '.' :: r1.tail.takeWhile Char.isDigit, r1.tail.dropWhile Char.isDigit)
  else some (ds, r1)

/-- One optional group `(?:(\d+\.?\d*)u)?` of the duration regex:
either the matched number together with the remainder after the unit
letter `u`, or no group and the input unchanged. -/
def munchGroup (u : Char) (cs : List Char) : Option (List Char) × List Char :=
  match munchNum cs with
  | none => (none, cs)
  | some (n, rest) =>
    match rest with
    | [] => (none, cs)
    | u' :: rest' => if u' = u then (some n, rest') else (none, cs)

/-- Skip a run of regex `\s*`. -/
def dropSpace (cs : List Char) : List Char := cs.dropWhile isPySpace

/-- The four captured groups of the duration regex. -/
structure DurGroups where
  d : Option (List Char)
  h : Option (List Char)
  m : Option (List Char)
  s : Option (List Char)
deriving DecidableEq

/-- Last stage of the duration regex: the optional seconds group,
after which the input must be exhausted (`re.fullmatch`). -/
def stageS (cs : List Char) : Option (Option (List Char)) :=
  let p := munchGroup 's' cs
  if p.2.isEmpty then some p.1 else none

/-- Minutes-then-seconds suffix of the duration regex. -/
def stageM (cs : List Char) : Option (Option (List Char) × Option (List Char)) :=
  let p := munchGroup 'm' cs
  (stageS (dropSpace p.2)).map (fun gs => (p.1, gs))

/-- Hours-then-minutes-then-seconds suffix of the duration regex. -/
def stageH (cs : List Char) :
    Option (Option (List Char) × Option (List Char) × Option (List Char)) :=
  let p := munchGroup 'h' cs
  (stageM (dropSpace p.2)).map (fun t => (p.1, t))

/-- `re.fullmatch` of the duration pattern
`(?:(\d+\.?\d*)d)?\s*(?:(\d+\.?\d*)h)?\s*(?:(\d+\.?\d*)m)?\s*(?:(\d+\.?\d*)s)?`
from `src/client.py`: the captured groups, or `none` when the string is
not consumed in full. -/
def durationMatch (cs : List Char) : Option DurGroups :=
  let p := munchGroup 'd' cs
  (stageH (dropSpace p.2)).map (fun t => ⟨p.1, t.1, t.2.1, t.2.2⟩)

/-- Value of Python `float` on a matched number token
(`digits [. digits]`). -/
def numTokVal (n : List Char) : Rat :=
  let ip := n.takeWhile Char.isDigit
  let rest := n.dropWhile Char.isDigit
  if rest.head? = some '.' then
    (digitsVal ip : Rat) + (digitsVal rest.tail : Rat) / (10 : Rat) ^ rest.tail.length
  else (digitsVal ip : Rat)

/-- `float(match.group(i)) if match.group(i) else 0`. -/
def groupVal : Option (List Char) → Rat
  | none => 0
  | some n => numTokVal n

/-- `duration_to_seconds` from `src/client.py`: the sentinel `-` maps
to 0; otherwise the duration regex is matched in full against the
stripped string and the groups are summed as days, hours, minutes and
seconds; `none` models the `ValueError` raised on no match. -/
def duration_to_seconds (duration : String) : Option Rat :=
  if duration = "-" then some 0
  else
    match durationMatch (pyStrip duration.data) with
    | none => none
    | some g =>
      some (groupVal g.d * 86400 + groupVal g.h * 3600 + groupVal g.m * 60 + groupVal g.s)

/-! ### The declarative duration pattern

The spec side of claims C4 and C5: a string "fully matches the
optional-groups pattern `Dd Hh Mm Ss`" when it is the concatenation of
the four optional `<number><unit>` groups, in that order, separated by
(possibly empty) runs of whitespace. -/

/-- A number token `\d+\.?\d*` matched in full: one or more digits,
optionally followed by a dot and further digits. -/
def IsNumTok (n : List Char) : Prop :=
  ∃ ds ds2 : List Char, ds ≠ [] ∧ (∀ c ∈ ds, c.isDigit) ∧ (∀ c ∈ ds2, c.isDigit) ∧
    (n = ds ∨ n = ds ++ '.' :: ds2)

/-- The text contributed by one optional group. -/
def optGroupStr (u : Char) : Option (List Char) → List Char
  | none => []
  | some n => n ++ [u]

abbrev AllSpace (w : List Char) : Prop := ∀ c ∈ w, isPySpace c

def IsTok : Option (List Char) → Prop
  | none => True
  | some n => IsNumTok n

/-- `cs` fully matches the optional-groups duration pattern with the
given group tokens. -/
def DurationShape (cs : List Char) (g : DurGroups) : Prop :=
  IsTok g.d ∧ IsTok g.h ∧ IsTok g.m ∧ IsTok g.s ∧
  ∃ w1 w2 w3 : List Char, AllSpace w1 ∧ AllSpace w2 ∧ AllSpace w3 ∧
    cs = optGroupStr 'd' g.d ++ w1 ++ optGroupStr 'h' g.h ++ w2 ++
         optGroupStr 'm' g.m ++ w3 ++ optGroupStr 's' g.s

/-! ### Soundness and completeness of the duration matcher -/

theorem isPySpace_not_digit {c : Char} (h : isPySpace c = true) : c.isDigit = false := by
  simp only [isPySpace, decide_eq_true_eq] at h
  rcases h with h | h | h | h | h | h <;> subst h <;> decide

theorem isPySpace_ne_dot {c : Char} (h : isPySpace c = true) : c ≠ '.' := by
  simp only [isPySpace, decide_eq_true_eq] at h
  rcases h with h | h | h | h | h | h <;> subst h <;> decide

theorem IsNumTok_head {n : List Char} (h : IsNumTok n) :
    ∃ c r, n = c :: r ∧ c.isDigit = true := by
  obtain ⟨ds, ds2, hne, hds, _, hcase⟩ := h
  cases ds with
  | nil => exact absurd rfl hne
  | cons c t =>
    rcases hcase with rfl | rfl
    · exact ⟨c, t, rfl, hds c (by simp)⟩
    · exact ⟨c, t ++ '.' :: ds2, by simp, hds c (by simp)⟩

theorem munchNum_nil : munchNum [] = none := rfl

theorem munchNum_not_digit {c : Char} {r : List Char} (h : c.isDigit = false) :
    munchNum (c :: r) = none := by
  simp [munchNum, h]

theorem munchNum_tok {n : List Char} {c : Char} {r : List Char}
    (hn : IsNumTok n) (hc : c.isDigit = false) (hc' : c ≠ '.') :
    munchNum (n ++ c :: r) = some (n, c :: r) := by
  obtain ⟨ds, ds2, hne, hds, hds2, hcase⟩ := hn
  have hdsne : ds.isEmpty = false := by
    cases ds
    · exact absurd rfl hne
    · rfl
  have hcneg : ¬(c.isDigit = true) := by simp [hc]
  have hdot : ¬(('.' : Char).isDigit = true) := by decide
  rcases hcase with rfl | rfl
  · simp only [munchNum, List.takeWhile_append_of_pos hds, List.dropWhile_append_of_pos hds,
      List.takeWhile_cons_of_neg hcneg, List.dropWhile_cons_of_neg hcneg,
      List.append_nil, hdsne]
    simp [hc']
  · simp only [munchNum, List.append_assoc, List.cons_append,
      List.takeWhile_append_of_pos hds, List.dropWhile_append_of_pos hds,
      List.takeWhile_cons_of_neg hdot, List.dropWhile_cons_of_neg hdot, hdsne]
    simp [List.takeWhile_append_of_pos hds2, List.dropWhile_append_of_pos hds2,
      List.takeWhile_cons_of_neg hcneg, List.dropWhile_cons_of_neg hcneg]
    exact hne

/-- The given optional group of the duration regex does not match at
the head of `cs`: the parser leaves the input untouched. -/
abbrev NoGroup (u : Char) (cs : List Char) : Prop :=
  munchGroup u cs = (none, cs)

theorem noGroup_nil {u : Char} : NoGroup u [] := rfl

theorem noGroup_not_digit {u c : Char} {r : List Char} (h : c.isDigit = false) :
    NoGroup u (c :: r) := by
  simp [NoGroup, munchGroup, munchNum_not_digit h]

theorem noGroup_tok (u v : Char) {n r : List Char} (hn : IsNumTok n)
    (hv : v.isDigit = false) (hv' : v ≠ '.') (hvu : v ≠ u) :
    NoGroup u (n ++ v :: r) := by
  simp [NoGroup, munchGroup, munchNum_tok hn hv hv', hvu]

theorem noGroup_space {u : Char} {w cs : List Char} (hw : AllSpace w)
    (h : NoGroup u cs) : NoGroup u (w ++ cs) := by
  cases w with
  | nil => simpa using h
  | cons c w' =>
    exact noGroup_not_digit (isPySpace_not_digit (hw c (by simp)))

theorem noGroup_optGroup (u v : Char) {g : Option (List Char)} {cs : List Char}
    (hg : IsTok g) (hv : v.isDigit = false) (hv' : v ≠ '.') (hvu : v ≠ u)
    (h : NoGroup u cs) : NoGroup u (optGroupStr v g ++ cs) := by
  cases g with
  | none => simpa [optGroupStr] using h
  | some n =>
    simp only [optGroupStr, List.append_assoc, List.cons_append, List.nil_append]
    exact noGroup_tok u v hg hv hv' hvu

theorem munchGroup_tok (u : Char) {n rest : List Char} (hn : IsNumTok n)
    (hu : u.isDigit = false) (hu' : u ≠ '.') :
    munchGroup u (n ++ u :: rest) = (some n, rest) := by
  simp [munchGroup, munchNum_tok hn hu hu']

theorem dropSpace_append {w cs : List Char} (hw : AllSpace w) :
    dropSpace (w ++ cs) = dropSpace cs :=
  List.dropWhile_append_of_pos hw

theorem noGroup_group_end (u v : Char) {g : Option (List Char)} (hg : IsTok g)
    (hv : v.isDigit = false) (hv' : v ≠ '.') (hvu : v ≠ u) :
    NoGroup u (optGroupStr v g) := by
  cases g with
  | none => exact noGroup_nil
  | some n => exact noGroup_tok u v hg hv hv' hvu

theorem isDigit_not_space {c : Char} (h : c.isDigit = true) : isPySpace c = false := by
  cases hsp : isPySpace c
  · rfl
  · rw [isPySpace_not_digit hsp] at h
    cases h

theorem dropSpace_tok {n rest : List Char} (hn : IsNumTok n) :
    dropSpace (n ++ rest) = n ++ rest := by
  obtain ⟨c, r, rfl, hc⟩ := IsNumTok_head hn
  simp only [List.cons_append]
  exact List.dropWhile_cons_of_neg (by simp [isDigit_not_space hc])

theorem optGroupStr_some {u : Char} {n : List Char} :
    optGroupStr u (some n) = n ++ u :: [] := rfl

theorem optGroupStr_none {u : Char} : optGroupStr u none = [] := rfl

theorem stageS_group {gs : Option (List Char)} (hg : IsTok gs) :
    stageS (optGroupStr 's' gs) = some gs := by
  cases gs with
  | none => rfl
  | some n =>
    have hnum : IsNumTok n := hg
    rw [optGroupStr_some]
    simp [stageS, munchGroup_tok 's' hnum (by decide) (by decide)]

theorem stageS_full {w : List Char} {gs : Option (List Char)}
    (hw : AllSpace w) (hg : IsTok gs) :
    stageS (dropSpace (w ++ optGroupStr 's' gs)) = some gs := by
  rw [dropSpace_append hw]
  cases gs with
  | none => rfl
  | some n =>
    have hnum : IsNumTok n := hg
    rw [optGroupStr_some, dropSpace_tok hnum]
    simp [stageS, munchGroup_tok 's' hnum (by decide) (by decide)]

theorem stageM_full {w2 w3 : List Char} {gm gs : Option (List Char)}
    (hw2 : AllSpace w2) (hgm : IsTok gm) (hw3 : AllSpace w3) (hgs : IsTok gs) :
    stageM (dropSpace (w2 ++ (optGroupStr 'm' gm ++ (w3 ++ optGroupStr 's' gs)))) =
      some (gm, gs) := by
  rw [dropSpace_append hw2]
  cases gm with
  | some n =>
    have hnum : IsNumTok n := hgm
    rw [optGroupStr_some, List.append_assoc, List.cons_append, List.nil_append,
      dropSpace_tok hnum]
    simp only [stageM, munchGroup_tok 'm' hnum (by decide) (by decide)]
    rw [stageS_full hw3 hgs]
    rfl
  | none =>
    simp only [optGroupStr_none, List.nil_append]
    rw [dropSpace_append hw3]
    cases gs with
    | none => rfl
    | some ns =>
      have hnum : IsNumTok ns := hgs
      rw [optGroupStr_some, dropSpace_tok hnum]
      have hng : NoGroup 'm' (ns ++ 's' :: []) :=
        noGroup_tok 'm' 's' hnum (by decide) (by decide) (by decide)
      simp only [stageM, hng]
      rw [dropSpace_tok hnum]
      rw [show (ns ++ 's' :: [] : List Char) = optGroupStr 's' (some ns) from rfl,
        stageS_group hgs]
      rfl

theorem dropSpace_idem (cs : List Char) : dropSpace (dropSpace cs) = dropSpace cs := by
  induction cs with
  | nil => rfl
  | cons c r ih =>
    by_cases h : isPySpace c = true
    · simpa [dropSpace, List.dropWhile_cons_of_pos h] using ih
    · simp [dropSpace, List.dropWhile_cons_of_neg h]

theorem dropSpace_group {u : Char} {g : Option (List Char)} (hg : IsTok g) :
    dropSpace (optGroupStr u g) = optGroupStr u g := by
  cases g with
  | none => rfl
  | some n =>
    rw [optGroupStr_some]
    exact dropSpace_tok hg

theorem noGroup_h_tail {w3 : List Char} {gm gs : Option (List Char)}
    (hgm : IsTok gm) (hw3 : AllSpace w3) (hgs : IsTok gs) :
    NoGroup 'h' (dropSpace (optGroupStr 'm' gm ++ (w3 ++ optGroupStr 's' gs))) := by
  cases gm with
  | some n =>
    have hnum : IsNumTok n := hgm
    rw [optGroupStr_some, List.append_assoc, List.cons_append, List.nil_append,
      dropSpace_tok hnum]
    exact noGroup_tok 'h' 'm' hnum (by decide) (by decide) (by decide)
  | none =>
    simp only [optGroupStr_none, List.nil_append]
    rw [dropSpace_append hw3, dropSpace_group hgs]
    exact noGroup_group_end 'h' 's' hgs (by decide) (by decide) (by decide)

theorem stageH_full {w1 w2 w3 : List Char} {gh gm gs : Option (List Char)}
    (hw1 : AllSpace w1) (hgh : IsTok gh) (hw2 : AllSpace w2) (hgm : IsTok gm)
    (hw3 : AllSpace w3) (hgs : IsTok gs) :
    stageH (dropSpace (w1 ++ (optGroupStr 'h' gh ++
      (w2 ++ (optGroupStr 'm' gm ++ (w3 ++ optGroupStr 's' gs)))))) =
      some (gh, gm, gs) := by
  rw [dropSpace_append hw1]
  cases gh with
  | some n =>
    have hnum : IsNumTok n := hgh
    rw [optGroupStr_some, List.append_assoc, List.cons_append, List.nil_append,
      dropSpace_tok hnum]
    simp only [stageH, munchGroup_tok 'h' hnum (by decide) (by decide)]
    rw [stageM_full hw2 hgm hw3 hgs]
    rfl
  | none =>
    simp only [optGroupStr_none, List.nil_append]
    rw [dropSpace_append hw2]
    have hng := noGroup_h_tail hgm hw3 hgs
    simp only [stageH, hng]
    rw [dropSpace_idem]
    have hsm : stageM (dropSpace (([] : List Char) ++ (optGroupStr 'm' gm ++
        (w3 ++ optGroupStr 's' gs)))) = some (gm, gs) :=
      stageM_full (by simp [AllSpace]) hgm hw3 hgs
    rw [List.nil_append] at hsm
    rw [hsm]
    rfl

theorem durationMatch_complete {cs : List Char} {g : DurGroups}
    (h : DurationShape cs g) : durationMatch cs = some g := by
  obtain ⟨gd, gh, gm, gs⟩ := g
  obtain ⟨hd, hh, hm, hs, w1, w2, w3, hw1, hw2, hw3, rfl⟩ := h
  simp only [List.append_assoc]
  cases gd with
  | some n =>
    have hnum : IsNumTok n := hd
    rw [optGroupStr_some, List.append_assoc, List.cons_append, List.nil_append]
    simp only [durationMatch, munchGroup_tok 'd' hnum (by decide) (by decide)]
    rw [stageH_full hw1 hh hw2 hm hw3 hs]
    rfl
  | none =>
    simp only [optGroupStr_none, List.nil_append]
    have hng : NoGroup 'd' (w1 ++ (optGroupStr 'h' gh ++
        (w2 ++ (optGroupStr 'm' gm ++ (w3 ++ optGroupStr 's' gs))))) :=
      noGroup_space hw1 (noGroup_optGroup 'd' 'h' hh (by decide) (by decide) (by decide)
        (noGroup_space hw2 (noGroup_optGroup 'd' 'm' hm (by decide) (by decide) (by decide)
          (noGroup_space hw3 (noGroup_group_end 'd' 's' hs (by decide) (by decide) (by decide))))))
    simp only [durationMatch, hng]
    rw [stageH_full hw1 hh hw2 hm hw3 hs]
    rfl

theorem munchNum_sound {cs n rest : List Char} (h : munchNum cs = some (n, rest)) :
    cs = n ++ rest ∧ IsNumTok n := by
  simp only [munchNum] at h
  obtain ⟨ds, hds⟩ : ∃ l, cs.takeWhile Char.isDigit = l := ⟨_, rfl⟩
  obtain ⟨dw, hdw⟩ : ∃ l, cs.dropWhile Char.isDigit = l := ⟨_, rfl⟩
  have hcs : cs = ds ++ dw := by
    rw [← hds, ← hdw, List.takeWhile_append_dropWhile]
  have hmem : ∀ c ∈ ds, c.isDigit = true := fun c hc => List.mem_takeWhile_imp (hds ▸ hc)
  rw [hds, hdw] at h
  split at h
  · cases h
  · rename_i h1
    have hne : ds ≠ [] := by simpa [List.isEmpty_iff] using h1
    split at h
    · rename_i h2
      cases dw with
      | nil => cases h2
      | cons a t =>
        obtain rfl : a = '.' := by simpa using h2
        rw [Option.some.injEq, Prod.mk.injEq] at h
        obtain ⟨rfl, rfl⟩ := h
        refine ⟨?_, ⟨_, _, hne, hmem, fun c hc => List.mem_takeWhile_imp hc, Or.inr rfl⟩⟩
        rw [hcs]
        simp [List.takeWhile_append_dropWhile]
    · rw [Option.some.injEq, Prod.mk.injEq] at h
      obtain ⟨rfl, rfl⟩ := h
      exact ⟨hcs, ⟨_, [], hne, hmem, by simp, Or.inl rfl⟩⟩

theorem munchGroup_eq (u : Char) (cs : List Char) :
    munchGroup u cs = (none, cs) ∨
      ∃ n rest, munchGroup u cs = (some n, rest) ∧ cs = n ++ u :: rest ∧ IsNumTok n := by
  unfold munchGroup
  cases hmn : munchNum cs with
  | none => exact Or.inl rfl
  | some p =>
    obtain ⟨n, r⟩ := p
    cases r with
    | nil => exact Or.inl rfl
    | cons a r' =>
      by_cases ha : a = u
      · subst ha
        obtain ⟨hcs, htok⟩ := munchNum_sound hmn
        exact Or.inr ⟨n, r', by simp, hcs, htok⟩
      · exact Or.inl (by simp [ha])

theorem dropSpace_decomp (cs : List Char) :
    ∃ w, AllSpace w ∧ cs = w ++ dropSpace cs :=
  ⟨cs.takeWhile isPySpace, fun _ hc => List.mem_takeWhile_imp hc,
    (List.takeWhile_append_dropWhile _ _).symm⟩

theorem stageS_sound {cs : List Char} {gs : Option (List Char)}
    (h : stageS cs = some gs) : IsTok gs ∧ cs = optGroupStr 's' gs := by
  rcases munchGroup_eq 's' cs with heq | ⟨n, rest, heq, hcs, htok⟩
  · rw [stageS, heq] at h
    by_cases hemp : cs.isEmpty = true
    · rw [if_pos hemp, Option.some.injEq] at h
      subst h
      refine ⟨trivial, ?_⟩
      rw [optGroupStr_none]
      exact List.isEmpty_iff.mp hemp
    · rw [if_neg hemp] at h
      cases h
  · rw [stageS, heq] at h
    by_cases hemp : rest.isEmpty = true
    · rw [if_pos hemp, Option.some.injEq] at h
      subst h
      refine ⟨htok, ?_⟩
      rw [optGroupStr_some, hcs, List.isEmpty_iff.mp hemp]
    · rw [if_neg hemp] at h
      cases h

theorem stageM_sound {cs : List Char} {gm gs : Option (List Char)}
    (h : stageM cs = some (gm, gs)) :
    IsTok gm ∧ IsTok gs ∧ ∃ w, AllSpace w ∧
      cs = optGroupStr 'm' gm ++ (w ++ optGroupStr 's' gs) := by
  rcases munchGroup_eq 'm' cs with heq | ⟨n, rest, heq, hcs, htok⟩
  · rw [stageM, heq] at h
    cases hS : stageS (dropSpace cs) with
    | none => rw [hS] at h; cases h
    | some gs' =>
      rw [hS] at h
      simp only [Option.map_some', Option.some.injEq, Prod.mk.injEq] at h
      obtain ⟨rfl, rfl⟩ := h
      obtain ⟨htk, hshape⟩ := stageS_sound hS
      obtain ⟨w, hw, hdec⟩ := dropSpace_decomp cs
      rw [hshape] at hdec
      refine ⟨trivial, htk, w, hw, ?_⟩
      rw [optGroupStr_none, List.nil_append]
      exact hdec
  · rw [stageM, heq] at h
    cases hS : stageS (dropSpace rest) with
    | none => rw [hS] at h; cases h
    | some gs' =>
      rw [hS] at h
      simp only [Option.map_some', Option.some.injEq, Prod.mk.injEq] at h
      obtain ⟨rfl, rfl⟩ := h
      obtain ⟨htk, hshape⟩ := stageS_sound hS
      obtain ⟨w, hw, hdec⟩ := dropSpace_decomp rest
      rw [hshape] at hdec
      refine ⟨htok, htk, w, hw, ?_⟩
      rw [hcs, hdec, optGroupStr_some]
      simp

theorem stageH_sound {cs : List Char} {gh gm gs : Option (List Char)}
    (h : stageH cs = some (gh, gm, gs)) :
    IsTok gh ∧ IsTok gm ∧ IsTok gs ∧ ∃ w2 w3, AllSpace w2 ∧ AllSpace w3 ∧
      cs = optGroupStr 'h' gh ++ (w2 ++ (optGroupStr 'm' gm ++ (w3 ++ optGroupStr 's' gs))) := by
  rcases munchGroup_eq 'h' cs with heq | ⟨n, rest, heq, hcs, htok⟩
  · rw [stageH, heq] at h
    cases hS : stageM (dropSpace cs) with
    | none => rw [hS] at h; cases h
    | some t =>
      obtain ⟨tm, ts⟩ := t
      rw [hS] at h
      simp only [Option.map_some', Option.some.injEq, Prod.mk.injEq] at h
      obtain ⟨rfl, rfl, rfl⟩ := h
      obtain ⟨htm, hts, w3, hw3, hshape⟩ := stageM_sound hS
      obtain ⟨w2, hw2, hdec⟩ := dropSpace_decomp cs
      rw [hshape] at hdec
      refine ⟨trivial, htm, hts, w2, w3, hw2, hw3, ?_⟩
      rw [optGroupStr_none, List.nil_append]
      exact hdec
  · rw [stageH, heq] at h
    cases hS : stageM (dropSpace rest) with
    | none => rw [hS] at h; cases h
    | some t =>
      obtain ⟨tm, ts⟩ := t
      rw [hS] at h
      simp only [Option.map_some', Option.some.injEq, Prod.mk.injEq] at h
      obtain ⟨rfl, rfl, rfl⟩ := h
      obtain ⟨htm, hts, w3, hw3, hshape⟩ := stageM_sound hS
      obtain ⟨w2, hw2, hdec⟩ := dropSpace_decomp rest
      rw [hshape] at hdec
      refine ⟨htok, htm, hts, w2, w3, hw2, hw3, ?_⟩
      rw [hcs, hdec, optGroupStr_some]
      simp

theorem durationMatch_sound {cs : List Char} {g : DurGroups}
    (h : durationMatch cs = some g) : DurationShape cs g := by
  rcases munchGroup_eq 'd' cs with heq | ⟨n, rest, heq, hcs, htok⟩
  · rw [durationMatch, heq] at h
    cases hS : stageH (dropSpace cs) with
    | none => rw [hS] at h; cases h
    | some t =>
      obtain ⟨th, tm, ts⟩ := t
      rw [hS] at h
      simp only [Option.map_some', Option.some.injEq] at h
      subst h
      obtain ⟨hth, htm, hts, w2, w3, hw2, hw3, hshape⟩ := stageH_sound hS
      obtain ⟨w1, hw1, hdec⟩ := dropSpace_decomp cs
      rw [hshape] at hdec
      refine ⟨trivial, hth, htm, hts, w1, w2, w3, hw1, hw2, hw3, ?_⟩
      rw [optGroupStr_none, List.nil_append]
      simpa [List.append_assoc] using hdec
  · rw [durationMatch, heq] at h
    cases hS : stageH (dropSpace rest) with
    | none => rw [hS] at h; cases h
    | some t =>
      obtain ⟨th, tm, ts⟩ := t
      rw [hS] at h
      simp only [Option.map_some', Option.some.injEq] at h
      subst h
      obtain ⟨hth, htm, hts, w2, w3, hw2, hw3, hshape⟩ := stageH_sound hS
      obtain ⟨w1, hw1, hdec⟩ := dropSpace_decomp rest
      rw [hshape] at hdec
      refine ⟨htok, hth, htm, hts, w1, w2, w3, hw1, hw2, hw3, ?_⟩
      rw [hcs, hdec, optGroupStr_some]
      simp [List.append_assoc]

/-- Evaluation helper: on a non-sentinel input whose stripped text the
duration regex matches with groups `g`, `duration_to_seconds` returns
the weighted sum of the groups. -/
theorem dts_eval {s : String} {g : DurGroups}
    (h : durationMatch (pyStrip s.data) = some g) (hs : s ≠ "-") :
    duration_to_seconds s =
      some (groupVal g.d * 86400 + groupVal g.h * 3600 + groupVal g.m * 60 + groupVal g.s) := by
  unfold duration_to_seconds
  rw [if_neg hs, h]

/-- **C4.** `duration_to_seconds` maps the sentinel `-` to 0 and the
empty string to 0, and for every string fully matching the
optional-groups pattern `Dd Hh Mm Ss` (any subset of groups present, in
that order, whitespace-separated) it returns
`days*86400 + hours*3600 + minutes*60 + seconds` with missing groups
defaulting to 0; in particular `duration_to_seconds "1d2h3m4s" = 93784`. -/
theorem C4_duration_value (s : String) :
    duration_to_seconds "-" = some 0 ∧ duration_to_seconds "" = some 0 ∧
    (∀ g : DurGroups, DurationShape (pyStrip s.data) g →
      duration_to_seconds s =
        some (groupVal g.d * 86400 + groupVal g.h * 3600 + groupVal g.m * 60 + groupVal g.s)) ∧
    duration_to_seconds "1d2h3m4s" = some 93784 := by
  refine ⟨rfl, ?_, ?_, ?_⟩
  · have h : durationMatch (pyStrip "".data) = some ⟨none, none, none, none⟩ := rfl
    rw [dts_eval h (by decide)]
    norm_num [groupVal]
  · intro g hg
    by_cases hs : s = "-"
    · subst hs
      have hc := durationMatch_complete hg
      rw [show durationMatch (pyStrip "-".data) = none from rfl] at hc
      cases hc
    · exact dts_eval (durationMatch_complete hg) hs
  · have h : durationMatch (pyStrip "1d2h3m4s".data) =
        some ⟨some ['1'], some ['2'], some ['3'], some ['4']⟩ := rfl
    rw [dts_eval h (by decide)]
    have h1 : numTokVal ['1'] = ((1 : Nat) : Rat) := rfl
    have h2 : numTokVal ['2'] = ((2 : Nat) : Rat) := rfl
    have h3 : numTokVal ['3'] = ((3 : Nat) : Rat) := rfl
    have h4 : numTokVal ['4'] = ((4 : Nat) : Rat) := rfl
    norm_num [groupVal, h1, h2, h3, h4]

/-- Witness for C4 at the concrete input `"2h 30m"`. -/
theorem C4_duration_value_witness :
    duration_to_seconds "2h 30m" = some 9000 := by
  have hsh : DurationShape (pyStrip "2h 30m".data)
      ⟨none, some ['2'], some ['3', '0'], none⟩ :=
    ⟨trivial, ⟨['2'], [], by decide, by decide, by decide, Or.inl rfl⟩,
      ⟨['3', '0'], [], by decide, by decide, by decide, Or.inl rfl⟩, trivial,
      [], [' '], [], by decide, by decide, by decide, by decide⟩
  have h := (C4_duration_value "2h 30m").2.2.1 _ hsh
  rw [h]
  have h2 : numTokVal ['2'] = ((2 : Nat) : Rat) := rfl
  have h3 : numTokVal ['3', '0'] = ((30 : Nat) : Rat) := rfl
  norm_num [groupVal, h2, h3]

/-- **C5.** `duration_to_seconds` fails (raises, modelled `none`) if
and only if the input string, other than the sentinel `-`, does not
fully match the optional-groups duration pattern; every input that does
fully match yields a number. -/
theorem C5_duration_error_iff_unparsable (s : String) :
    duration_to_seconds s = none ↔
      s ≠ "-" ∧ ¬ ∃ g, DurationShape (pyStrip s.data) g := by
  unfold duration_to_seconds
  by_cases hs : s = "-"
  · simp [hs]
  · rw [if_neg hs]
    simp only [hs, ne_eq, not_false_iff, true_and]
    cases hm : durationMatch (pyStrip s.data) with
    | none =>
      constructor
      · rintro - ⟨g, hg⟩
        rw [durationMatch_complete hg] at hm
        cases hm
      · intro _
        rfl
    | some g =>
      constructor
      · intro h
        simp at h
      · intro h
        exact absurd ⟨g, durationMatch_sound hm⟩ h

/-! ## Memory parsing (`parse_memory_value`) -/

/-- Helper of `pySplit`: accumulates the current (reversed) field. -/
def pySplitAux : List Char → List Char → List (List Char)
  | [], acc => if acc.isEmpty then [] else [acc.reverse]
  | c :: r, acc =>
    if isPySpace c then
      if acc.isEmpty then pySplitAux r [] else acc.reverse :: pySplitAux r []
    else pySplitAux r (c :: acc)

/-- Python `str.split()` with no argument: split on runs of whitespace,
discarding empty fields. -/
def pySplit (cs : List Char) : List (List Char) :=
  pySplitAux cs []

/-- The `conversion_factors` dictionary lookup
`conversion_factors.get(unit, 1)` of `parse_memory_value`: binary
multiples of a megabyte, defaulting to 1 for unknown units. -/
def convFactor (unit : List Char) : Rat :=
  if unit = ['K', 'B'] then (1 : Rat) / 1024
  else if unit = ['M', 'B'] then 1
  else if unit = ['G', 'B'] then 1024
  else if unit = ['T', 'B'] then 1024 ^ 2
  else 1

/-- `parse_memory_value` from `src/client.py`: `None` (here `none`) for
the sentinel `-` or a falsy (empty) string; otherwise split on
whitespace into exactly `num, unit`; parse `num` as a float and scale
by the factor of the upper-cased unit.  The bare `except` turns every
failure (wrong split arity, unparsable number) into the returned
`None`; the function never raises. -/
def parse_memory_value (value : String) : Option Rat :=
  if value = "-" ∨ value = "" then none
  else
    match pySplit value.data with
    | [num, unit] =>
      match pyFloat? ⟨num⟩ with
      | none => none
      | some x => some (x * convFactor (unit.map Char.toUpper))
    | _ => none

/-- Evaluation helper for `parse_memory_value` on a well-split input. -/
theorem pmv_eval {s : String} {num unit : List Char} {x : Rat}
    (hs : ¬(s = "-" ∨ s = "")) (h1 : pySplit s.data = [num, unit])
    (h2 : pyFloat? ⟨num⟩ = some x) :
    parse_memory_value s = some (x * convFactor (unit.map Char.toUpper)) := by
  unfold parse_memory_value
  rw [if_neg hs, h1]
  simp only [h2]

/-- **C3.** `parse_memory_value` is total (modelled as a total function
into `Option`, where `none` is the returned `None` value, never a
raised error): it returns `none` for the sentinel `-`, for the empty
string, and for any parse failure (a whitespace split of arity other
than two, or an unparsable number), and for every input that splits as
`<number> <unit>` it returns the number scaled by the factor of the
upper-cased unit, where the factors realise binary multiples
(KB = 1/1024 MB, MB = 1, GB = 1024, TB = 1024²; unknown units scale by
1); in particular `parse_memory_value "512 MB" = 512` and
`parse_memory_value "1 GB" = 1024`. -/
theorem C3_parse_memory_value :
    parse_memory_value "-" = none ∧ parse_memory_value "" = none ∧
    (∀ s : String, s ≠ "-" → s ≠ "" →
      (∀ num unit, pySplit s.data = [num, unit] → pyFloat? ⟨num⟩ = none →
        parse_memory_value s = none) ∧
      ((∀ num unit, pySplit s.data ≠ [num, unit]) → parse_memory_value s = none) ∧
      (∀ num unit x, pySplit s.data = [num, unit] → pyFloat? ⟨num⟩ = some x →
        parse_memory_value s = some (x * convFactor (unit.map Char.toUpper)))) ∧
    convFactor ['K', 'B'] = 1 / 1024 ∧ convFactor ['M', 'B'] = 1 ∧
    convFactor ['G', 'B'] = 1024 ∧ convFactor ['T', 'B'] = 1024 ^ 2 ∧
    parse_memory_value "512 MB" = some 512 ∧ parse_memory_value "1 GB" = some 1024 := by
  refine ⟨rfl, rfl, ?_, rfl, rfl, rfl, rfl, ?_, ?_⟩
  · intro s hs1 hs2
    have hs : ¬(s = "-" ∨ s = "") := by
      rintro (h | h)
      · exact hs1 h
      · exact hs2 h
    refine ⟨?_, ?_, ?_⟩
    · intro num unit h1 h2
      unfold parse_memory_value
      rw [if_neg hs, h1]
      simp only [h2]
    · intro hne
      unfold parse_memory_value
      rw [if_neg hs]
      cases hsp : pySplit s.data with
      | nil => rfl
      | cons a t =>
        cases t with
        | nil => rfl
        | cons b t2 =>
          cases t2 with
          | nil => exact absurd hsp (hne a b)
          | cons c t3 => rfl
    · intro num unit x h1 h2
      exact pmv_eval hs h1 h2
  · have h1 : pySplit "512 MB".data = [['5', '1', '2'], ['M', 'B']] := rfl
    have h2 : pyFloat? ⟨['5', '1', '2']⟩ = some ((512 : Nat) : Rat) := rfl
    have hu : (['M', 'B'] : List Char).map Char.toUpper = ['M', 'B'] := rfl
    have hc : convFactor ['M', 'B'] = 1 := rfl
    rw [pmv_eval (by decide) h1 h2, hu, hc]
    norm_num
  · have h1 : pySplit "1 GB".data = [['1'], ['G', 'B']] := rfl
    have h2 : pyFloat? ⟨['1']⟩ = some ((1 : Nat) : Rat) := rfl
    have hu : (['G', 'B'] : List Char).map Char.toUpper = ['G', 'B'] := rfl
    have hc : convFactor ['G', 'B'] = 1024 := rfl
    rw [pmv_eval (by decide) h1 h2, hu, hc]
    norm_num

/-- Witness for C3 at the concrete input `"2 kb"` (lower-case unit). -/
theorem C3_parse_memory_value_witness :
    parse_memory_value "2 kb" = some (1 / 512) := by
  have h := (C3_parse_memory_value.2.2.1 "2 kb" (by decide) (by decide)).2.2
    ['2'] ['k', 'b'] ((2 : Nat) : Rat) rfl rfl
  have hu : (['k', 'b'] : List Char).map Char.toUpper = ['K', 'B'] := rfl
  have hc : convFactor ['K', 'B'] = 1 / 1024 := rfl
  rw [h, hu, hc]
  norm_num

/-! ## Process-id derivation (`extract_process_id`) -/

/-- Python slicing `s[a:b]` for nonnegative bounds: the characters with
index in `[a, min(b, len s))` (out-of-range bounds clamp, never
raise). -/
def pySlice (cs : List Char) (a b : Nat) : List Char :=
  (cs.drop a).take (b - a)

/-- `extract_process_id` from `src/client.py`:
`f"\x7bname[:2]\x7d/\x7bname[2:8]\x7d"`. -/
def extract_process_id (name : String) : String :=
  ⟨pySlice name.data 0 2 ++ '/' :: pySlice name.data 2 8⟩

/-- **C9.** For every pipeline-step name, the derived
process-execution identifier is the first 2 characters of the name,
then `/`, then the next 6 characters (the 3rd through 8th) of the
name. -/
theorem C9_extract_process_id (name : String) :
    extract_process_id name =
      ⟨name.data.take 2 ++ '/' :: (name.data.drop 2).take 6⟩ := rfl

/-! ## Directory fingerprinting (`get_directory_xxhash128`) -/

/-- Byte stream of a string as fed to the hash (`line.encode()`); code
points stand in for UTF-8 bytes (the paths involved are ASCII). -/
def strBytes (s : String) : List Nat :=
  s.data.map Char.toNat

/-- `get_directory_xxhash128` from `src/client.py`, parametric in the
external collaborators: `hashHex` is the xxh128 hex digest of a byte
stream (fed chunkwise via `update`, which concatenates), `fs` maps a
file path to its contents, and `walkFiles` is the file list produced by
`os.walk` in whatever order the filesystem enumerates it.  The function
sorts the paths (`files.sort()`, lexicographic), hashes each file,
forms the per-file `"<digest> <path>"` lines and folds their bytes
through one final hash.  (Per-file read errors, which the code skips
with a warning, are not modelled; no claim below depends on them.) -/
def get_directory_xxhash128 (hashHex : List Nat → String) (fs : String → List Nat)
    (walkFiles : List String) : String :=
  let files := walkFiles.mergeSort
  let lines := files.map (fun f => hashHex (fs f) ++ " " ++ f)
  hashHex ((lines.map strBytes).flatten)

/-- **C6.** `get_directory_xxhash128` is deterministic and invariant
to filesystem traversal order: any two enumerations of the same file
set (same multiset of paths, contents fixed by the filesystem) produce
the same digest, because the paths are sorted before the per-file
lines are folded through the hash. -/
theorem C6_directory_hash_deterministic (hashHex : List Nat → String)
    (fs : String → List Nat) (w1 w2 : List String) (hperm : w1.Perm w2) :
    get_directory_xxhash128 hashHex fs w1 = get_directory_xxhash128 hashHex fs w2 := by
  unfold get_directory_xxhash128
  have hs : w1.mergeSort = w2.mergeSort :=
    List.eq_of_perm_of_sorted
      ((List.mergeSort_perm w1 _).trans (hperm.trans (List.mergeSort_perm w2 _).symm))
      (List.sorted_mergeSort' w1) (List.sorted_mergeSort' w2)
  rw [hs]

/-- Witness for C6: two enumeration orders of the same two files. -/
theorem C6_directory_hash_deterministic_witness :
    get_directory_xxhash128 (fun l => toString l.length) (fun _ => [0])
      ["b", "a"] =
    get_directory_xxhash128 (fun l => toString l.length) (fun _ => [0])
      ["a", "b"] :=
  C6_directory_hash_deterministic (fun l => toString l.length) (fun _ => [0])
    ["b", "a"] ["a", "b"] (by decide)

/-! ## Provenance extraction (`get_provenance_data`) -/

/-- What a path resolves to on disk (`os.path.isfile` / `os.path.isdir`
/ neither). -/
inductive FsObj
  | file
  | dir
  | missing
deriving DecidableEq

/-- `get_obj_xxhash128` from `src/client.py`, parametric in the
externals: `resolve` models `unquote(urlparse(obj).path)` (URI to local
path, decoding percent escapes), `fs` classifies a path, and
`fileHash`/`dirHash` are the file and directory fingerprints.  A URI
resolving to neither an existing file nor a directory yields `none`. -/
def get_obj_xxhash128 (resolve : String → String) (fs : String → FsObj)
    (fileHash dirHash : String → String) (obj : String) : Option String :=
  let full_path := resolve obj
  match fs full_path with
  | .file => some (fileHash full_path)
  | .dir => some (dirHash full_path)
  | .missing => none

/-- An element of a step's `input_list`/`output_list`. -/
structure FileRef where
  uri : String
deriving DecidableEq

/-- An element of `description_domain.pipeline_steps`. -/
structure PipelineStep where
  name : String
  input_list : List FileRef
  output_list : List FileRef
deriving DecidableEq

/-- An element of `execution_domain.software_prerequisites`. -/
structure SoftwarePrereq where
  name : String
  version : String
deriving DecidableEq

/-- The fields of the parsed BCO provenance document that the client
reads. -/
structure BcoData where
  software_prerequisites : List SoftwarePrereq
  pipeline_steps : List PipelineStep
deriving DecidableEq

/-- One input- or output-file record built by `get_provenance_data`. -/
structure ProvEntry where
  process_execution_id : String
  filename : String
  xxhash128 : Option String
deriving DecidableEq

/-- The record appended for one file reference of a step. -/
def mkProvEntry (resolve : String → String) (fs : String → FsObj)
    (fileHash dirHash : String → String) (pid : String) (f : FileRef) : ProvEntry :=
  ⟨pid, f.uri, get_obj_xxhash128 resolve fs fileHash dirHash f.uri⟩

/-- Loop body of `get_provenance_data`: one pipeline step appends its
input records and its output records. -/
def provStep (resolve : String → String) (fs : String → FsObj)
    (fileHash dirHash : String → String)
    (acc : List ProvEntry × List ProvEntry) (step : PipelineStep) :
    List ProvEntry × List ProvEntry :=
  let process_id := extract_process_id step.name
  (acc.1 ++ step.input_list.map (mkProvEntry resolve fs fileHash dirHash process_id),
   acc.2 ++ step.output_list.map (mkProvEntry resolve fs fileHash dirHash process_id))

/-- `get_provenance_data` from `src/client.py`: iterate the pipeline
steps in order, derive each step's process-execution id from its name,
and append one record per declared input URI and one per output URI. -/
def get_provenance_data (resolve : String → String) (fs : String → FsObj)
    (fileHash dirHash : String → String) (bco : BcoData) :
    List ProvEntry × List ProvEntry :=
  bco.pipeline_steps.foldl (provStep resolve fs fileHash dirHash) ([], [])

theorem prov_foldl_aux (resolve : String → String) (fs : String → FsObj)
    (fileHash dirHash : String → String) (steps : List PipelineStep) :
    ∀ acc : List ProvEntry × List ProvEntry,
      steps.foldl (provStep resolve fs fileHash dirHash) acc =
        (acc.1 ++ steps.flatMap (fun step => step.input_list.map
           (mkProvEntry resolve fs fileHash dirHash (extract_process_id step.name))),
         acc.2 ++ steps.flatMap (fun step => step.output_list.map
           (mkProvEntry resolve fs fileHash dirHash (extract_process_id step.name)))) := by
  induction steps with
  | nil => intro acc; simp
  | cons st rest ih =>
    intro acc
    simp only [List.foldl_cons, ih, provStep, List.flatMap_cons, List.append_assoc]

/-- `get_provenance_data` as one record per declared reference, in
document order. -/
theorem get_provenance_data_eq (resolve : String → String) (fs : String → FsObj)
    (fileHash dirHash : String → String) (bco : BcoData) :
    get_provenance_data resolve fs fileHash dirHash bco =
      (bco.pipeline_steps.flatMap (fun step => step.input_list.map
         (mkProvEntry resolve fs fileHash dirHash (extract_process_id step.name))),
       bco.pipeline_steps.flatMap (fun step => step.output_list.map
         (mkProvEntry resolve fs fileHash dirHash (extract_process_id step.name)))) := by
  unfold get_provenance_data
  rw [prov_foldl_aux]
  simp

/-- The result of `get_provenance_data` holds exactly one input record
per declared input URI and one output record per declared output URI. -/
theorem get_provenance_data_lengths (resolve : String → String) (fs : String → FsObj)
    (fileHash dirHash : String → String) (bco : BcoData) :
    (get_provenance_data resolve fs fileHash dirHash bco).1.length =
      (bco.pipeline_steps.map (fun st => st.input_list.length)).sum ∧
    (get_provenance_data resolve fs fileHash dirHash bco).2.length =
      (bco.pipeline_steps.map (fun st => st.output_list.length)).sum := by
  rw [get_provenance_data_eq]
  constructor
  · rw [List.flatMap]
    simp [Function.comp_def, List.length_map]
  · rw [List.flatMap]
    simp [Function.comp_def, List.length_map]

/-- **C8.** For every input or output file URI whose target cannot be
resolved to an existing file or directory on disk, the produced record
carries an absent fingerprint (`xxhash128 = none`), and extraction of
the remaining references continues: the result holds exactly one
record per declared reference. -/
theorem C8_unresolved_reference (resolve : String → String) (fs : String → FsObj)
    (fileHash dirHash : String → String) (bco : BcoData) :
    (∀ step ∈ bco.pipeline_steps, ∀ f ∈ step.input_list,
      fs (resolve f.uri) = .missing →
        (⟨extract_process_id step.name, f.uri, none⟩ : ProvEntry) ∈
          (get_provenance_data resolve fs fileHash dirHash bco).1) ∧
    (∀ step ∈ bco.pipeline_steps, ∀ f ∈ step.output_list,
      fs (resolve f.uri) = .missing →
        (⟨extract_process_id step.name, f.uri, none⟩ : ProvEntry) ∈
          (get_provenance_data resolve fs fileHash dirHash bco).2) ∧
    (get_provenance_data resolve fs fileHash dirHash bco).1.length =
      (bco.pipeline_steps.map (fun st => st.input_list.length)).sum ∧
    (get_provenance_data resolve fs fileHash dirHash bco).2.length =
      (bco.pipeline_steps.map (fun st => st.output_list.length)).sum := by
  refine ⟨?_, ?_, (get_provenance_data_lengths resolve fs fileHash dirHash bco).1,
    (get_provenance_data_lengths resolve fs fileHash dirHash bco).2⟩
  · intro step hstep f hf hmiss
    rw [get_provenance_data_eq]
    simp only [List.mem_flatMap]
    refine ⟨step, hstep, ?_⟩
    simp only [List.mem_map]
    refine ⟨f, hf, ?_⟩
    simp [mkProvEntry, get_obj_xxhash128, hmiss]
  · intro step hstep f hf hmiss
    rw [get_provenance_data_eq]
    simp only [List.mem_flatMap]
    refine ⟨step, hstep, ?_⟩
    simp only [List.mem_map]
    refine ⟨f, hf, ?_⟩
    simp [mkProvEntry, get_obj_xxhash128, hmiss]

/-- Witness for C8: a one-step document with one unresolvable input. -/
theorem C8_unresolved_reference_witness :
    (⟨"ab/cdefgh", "u", none⟩ : ProvEntry) ∈
      (get_provenance_data id (fun _ => .missing) id id
        ⟨[], [⟨"abcdefghij", [⟨"u"⟩], []⟩]⟩).1 :=
  (C8_unresolved_reference id (fun _ => .missing) id id
      ⟨[], [⟨"abcdefghij", [⟨"u"⟩], []⟩]⟩).1
    ⟨"abcdefghij", [⟨"u"⟩], []⟩ (by simp) ⟨"u"⟩ (by simp) rfl

/-! ## Timestamp parsing (`datetime.strptime(...).timestamp()`)

Model of CPython `_strptime` for the two fixed formats the client uses,
`"%Y-%m-%d %H:%M:%S"` and `"%Y-%m-%d %H:%M:%S.%f"`.  The timestamp is
computed as UTC epoch seconds (the code uses the host's local timezone;
no claim depends on the numeric value, only on parse success). -/

/-- Parse a calendar field from one or two leading digits, longest
first, with CPython's regex fallback: a two-digit read whose value
falls outside `[lo, hi]` falls back to a one-digit read. -/
def parseNumField (lo hi : Nat) : List Char → Option (Nat × List Char)
  | c1 :: c2 :: rest =>
    if c1.isDigit ∧ c2.isDigit then
      let v2 := (c1.toNat - 48) * 10 + (c2.toNat - 48)
      if lo ≤ v2 ∧ v2 ≤ hi then some (v2, rest)
      else
        let v1 := c1.toNat - 48
        if lo ≤ v1 ∧ v1 ≤ hi then some (v1, c2 :: rest) else none
    else if c1.isDigit then
      let v1 := c1.toNat - 48
      if lo ≤ v1 ∧ v1 ≤ hi then some (v1, c2 :: rest) else none
    else none
  | [c1] =>
    if c1.isDigit then
      let v1 := c1.toNat - 48
      if lo ≤ v1 ∧ v1 ≤ hi then some (v1, []) else none
    else none
  | [] => none

/-- `%Y`: exactly four digits. -/
def parseYear : List Char → Option (Nat × List Char)
  | c1 :: c2 :: c3 :: c4 :: rest =>
    if c1.isDigit ∧ c2.isDigit ∧ c3.isDigit ∧ c4.isDigit then
      some (digitsVal [c1, c2, c3, c4], rest)
    else none
  | _ => none

/-- A literal character of the format. -/
def parseLit (c : Char) : List Char → Option (List Char)
  | x :: r => if x = c then some r else none
  | [] => none

/-- Whitespace in the format matches `\s+`. -/
def parseWs1 : List Char → Option (List Char)
  | c :: r => if isPySpace c then some (dropSpace r) else none
  | [] => none

/-- `%f`: one to six digits of fractional seconds, greedy. -/
def parseFrac (cs : List Char) : Option (Rat × List Char) :=
  let ds := (cs.takeWhile Char.isDigit).take 6
  if ds.isEmpty then none
  else some ((digitsVal ds : Rat) / (10 : Rat) ^ ds.length, cs.drop ds.length)

/-- Length of a month in the proleptic Gregorian calendar, for the
range check done by the `datetime` constructor. -/
def daysInMonth (y m : Nat) : Nat :=
  if m = 2 then (if (y % 4 = 0 ∧ y % 100 ≠ 0) ∨ y % 400 = 0 then 29 else 28)
  else if m = 4 ∨ m = 6 ∨ m = 9 ∨ m = 11 then 30 else 31

/-- Days from the Unix epoch to a Gregorian date (`days_from_civil`,
with floored division). -/
def daysFromCivil (y m d : Int) : Int :=
  let y' := if m ≤ 2 then y - 1 else y
  let m' := if m ≤ 2 then m + 12 else m
  365 * y' + Int.fdiv y' 4 - Int.fdiv y' 100 + Int.fdiv y' 400 +
    Int.fdiv (153 * (m' - 3) + 2) 5 + d - 1 - 719468

/-- Date-and-time prefix `%Y-%m-%d %H:%M:%S`, returning epoch seconds
and the remainder. -/
def parseDateTime (cs : List Char) : Option (Rat × List Char) :=
  obind (parseYear cs) fun py =>
  obind (parseLit '-' py.2) fun r2 =>
  obind (parseNumField 1 12 r2) fun pmo =>
  obind (parseLit '-' pmo.2) fun r4 =>
  obind (parseNumField 1 31 r4) fun pd =>
  obind (parseWs1 pd.2) fun r6 =>
  obind (parseNumField 0 23 r6) fun ph =>
  obind (parseLit ':' ph.2) fun r8 =>
  obind (parseNumField 0 59 r8) fun pmi =>
  obind (parseLit ':' pmi.2) fun r10 =>
  obind (parseNumField 0 59 r10) fun ps =>
  if pd.1 ≤ daysInMonth py.1 pmo.1 then
    some ((daysFromCivil py.1 pmo.1 pd.1 : Rat) * 86400 + (ph.1 : Rat) * 3600 +
      (pmi.1 : Rat) * 60 + (ps.1 : Rat), ps.2)
  else none

/-- `datetime.strptime(s, "%Y-%m-%d %H:%M:%S").timestamp()`; `none` is
the raised `ValueError`. -/
def pyStrptimeS (s : String) : Option Rat :=
  obind (parseDateTime s.data) fun p =>
  if p.2.isEmpty then some p.1 else none

/-- `datetime.strptime(s, "%Y-%m-%d %H:%M:%S.%f").timestamp()`. -/
def pyStrptimeF (s : String) : Option Rat :=
  obind (parseDateTime s.data) fun p =>
  obind (parseLit '.' p.2) fun r1 =>
  obind (parseFrac r1) fun pf =>
  if pf.2.isEmpty then some (p.1 + pf.1) else none

/-! ## Log extraction (`get_nextflow_log`) -/

/-- `get_nextflow_version` from `src/client.py`: the version of the
first software prerequisite named `Nextflow`, if any. -/
def get_nextflow_version (bco : BcoData) : Option String :=
  (bco.software_prerequisites.find? (fun item => item.name = "Nextflow")).map
    (fun item => item.version)

/-- Lookup in `dict(zip(headers, values))`: `zip` truncates to the
shorter list and a repeated key keeps its last value. -/
def zipLookup (headers values : List String) (k : String) : Option String :=
  (((headers.zip values).reverse.find? (fun p => p.1 = k))).map (fun p => p.2)

/-- The normalized workflow-execution record built by
`get_nextflow_log`. -/
structure WorkflowData where
  id : Option String
  start_time : Rat
  duration : Rat
  run_name : Option String
  nextflow_version : Option String
  revision_id : Option String
  final_state : Option String
deriving DecidableEq

/-- `get_nextflow_log` from `src/client.py`, parametric in the result
of the external `subprocess.run(["nextflow", "log"])`: `ret` is its
return code, `stdout` its captured output.  A nonzero return code makes
the function print an error and return `None` (`Except.ok none`); an
uncaught exception while building the record — `TIMESTAMP` column
missing or malformed, `DURATION` missing or malformed — is
`Except.error ()`.  Header lookup selects the last data row of the
stripped, tab-separated table. -/
def get_nextflow_log (ret : Int) (stdout : String) (bco : BcoData) :
    Except Unit (Option WorkflowData) :=
  if ret ≠ 0 then .ok none
  else
    let lines := pySplitSep '\n' (pyStripStr stdout)
    let headers := (pySplitSep '\t' lines.headI).map pyStripStr
    let latest_run := (pySplitSep '\t' (lines.getLast?.getD "")).map pyStripStr
    let execution_data := zipLookup headers latest_run
    match execution_data "TIMESTAMP" with
    | none => .error ()
    | some ts =>
      match pyStrptimeS ts with
      | none => .error ()
      | some start_time =>
        match execution_data "DURATION" with
        | none => .error ()
        | some dur =>
          match duration_to_seconds dur with
          | none => .error ()
          | some duration =>
            .ok (some
              { id := execution_data "SESSION ID"
                start_time := start_time
                duration := duration
                run_name := execution_data "RUN NAME"
                nextflow_version := get_nextflow_version bco
                revision_id := execution_data "REVISION ID"
                final_state := execution_data "STATUS" })

/-! ## Trace extraction (`get_process_execution_data`) -/

/-- The normalized process-execution record built per trace row. -/
structure ProcRecord where
  id : Option String
  workflow_execution_id : Option String
  process_name : Option String
  module_name : Option String
  container_name : Option String
  final_status : Option String
  exit_code : Int
  start_time : Rat
  duration : Rat
  cpus_requested : Int
  time_requested : Rat
  storage_requested : Option Rat
  memory_requested : Option Rat
  realtime : Rat
  queue_name : Option String
  percent_cpu : Rat
  percent_memory : Rat
  peak_rss : Option Rat
  peak_vmem : Option Rat
  read_char : Option Rat
  write_char : Option Rat
deriving DecidableEq

/-- One row of `get_process_execution_data`: build the record from the
header-keyed row dictionary.  `none` models any uncaught exception
(which in the code aborts the whole extraction): `int(...)` on an
absent or malformed `exit`/`cpus`, `item["start"]` missing or
malformed, `duration_to_seconds` on an absent or malformed `duration`
or a present-but-malformed `time`, `float(...)` on a malformed
`realtime`, and `.rstrip`/`float` on absent or malformed `%cpu`/`%mem`.
The `disk`/`memory` and `peak_rss`/`peak_vmem`/`rchar`/`wchar` columns
go through the non-raising `parse_memory_value`. -/
def rowToRecord (item : String → Option String) (wid : Option String) :
    Option ProcRecord :=
  obind (item "exit") fun exitS =>
  obind (pyInt? exitS) fun exit_code =>
  obind (item "start") fun startS =>
  obind (pyStrptimeF startS) fun start_time =>
  obind (item "duration") fun durS =>
  obind (duration_to_seconds durS) fun duration =>
  obind (item "cpus") fun cpusS =>
  obind (pyInt? cpusS) fun cpus_requested =>
  obind (duration_to_seconds ((item "time").getD "0s")) fun time_requested =>
  obind (pyFloat? (pyRstrip 's' ((item "realtime").getD "0s"))) fun realtime =>
  obind (item "%cpu") fun pcS =>
  obind (pyFloat? (pyRstrip '%' pcS)) fun percent_cpu =>
  obind (item "%mem") fun pmS =>
  obind (pyFloat? (pyRstrip '%' pmS)) fun percent_memory =>
  some
    { id := item "hash"
      workflow_execution_id := wid
      process_name := item "process"
      module_name := item "module"
      container_name := item "container"
      final_status := item "status"
      exit_code := exit_code
      start_time := start_time
      duration := duration
      cpus_requested := cpus_requested
      time_requested := time_requested
      storage_requested := parse_memory_value ((item "disk").getD "0 MB")
      memory_requested := parse_memory_value ((item "memory").getD "0 MB")
      realtime := realtime
      queue_name := item "queue"
      percent_cpu := percent_cpu
      percent_memory := percent_memory
      peak_rss := (item "peak_rss").bind (fun v => parse_memory_value v)
      peak_vmem := (item "peak_vmem").bind (fun v => parse_memory_value v)
      read_char := (item "rchar").bind (fun v => parse_memory_value v)
      write_char := (item "wchar").bind (fun v => parse_memory_value v) }

/-- Sequence a list of fallible computations; the first failure aborts
the whole list (the Python exception unwinds the loop). -/
def mapOpt {α β : Type} (f : α → Option β) : List α → Option (List β)
  | [] => some []
  | a :: r =>
    match f a, mapOpt f r with
    | some b, some br => some (b :: br)
    | _, _ => none

theorem mapOpt_length {α β : Type} {f : α → Option β} :
    ∀ {l : List α} {l' : List β}, mapOpt f l = some l' → l'.length = l.length := by
  intro l
  induction l with
  | nil =>
    intro l' h
    cases h
    rfl
  | cons a r ih =>
    intro l' h
    unfold mapOpt at h
    cases hf : f a with
    | none => rw [hf] at h; cases h
    | some b =>
      rw [hf] at h
      cases hr : mapOpt f r with
      | none => rw [hr] at h; cases h
      | some br =>
        rw [hr] at h
        cases h
        simp [ih hr]

/-- `get_process_execution_data` from `src/client.py`: the header row
keys the columns (`dict(zip(headers, ...))`), then one record per data
row in file order; `none` models the exception that aborts the
extraction (an empty file, or any hard-failing field in any row). -/
def get_process_execution_data (lines : List String) (wid : Option String) :
    Option (List ProcRecord) :=
  match lines with
  | [] => none
  | l0 :: rest =>
    let headers := pySplitSep '\t' (pyStripStr l0)
    mapOpt (fun line => rowToRecord (zipLookup headers (pySplitSep '\t' (pyStripStr line))) wid)
      rest

/-- A concrete trace row keyed by header name, with the four
requested-resource columns (`cpus`, `time`, `disk`, `memory`) left
variable (`none` = column absent) and every other column well-formed. -/
def mkItem (cpus time disk mem : Option String) (k : String) : Option String :=
  if k = "exit" then some "0"
  else if k = "start" then some "2024-01-02 03:04:05.678"
  else if k = "duration" then some "1m"
  else if k = "cpus" then cpus
  else if k = "time" then time
  else if k = "disk" then disk
  else if k = "memory" then mem
  else if k = "realtime" then some "30s"
  else if k = "%cpu" then some "50.0%"
  else if k = "%mem" then some "10.0%"
  else if k = "hash" then some "aa/bbbbbb"
  else none

/-- Counterexample to C1 as stated: a trace row whose `cpus` value is
malformed (`"abc"`) while every other column, including exit code and
the percentage columns, is well-formed, is not produced leniently —
`int(item.get("cpus"))` raises and the whole extraction fails. -/
theorem C1_counterexample :
    get_process_execution_data
      ["hash\tprocess\texit\tstart\tduration\tcpus\ttime\tdisk\tmemory\trealtime\t%cpu\t%mem",
        "aa/bbbbbb\tp\t0\t2024-01-02 03:04:05.678\t1m\tabc\t1h\t1 GB\t2 GB\t30s\t50.0%\t10.0%"]
      (some "w") = none := rfl

/-- **C1 (amended).** In trace extraction, only the `disk` and
`memory` requested-resource columns are lenient: they go through the
non-raising memory parser, default to the no-value result when absent
or malformed, and the row is still produced.  The `cpus` and `time`
columns are hard per-row failures when malformed (`cpus` also when
absent), alongside exit code, start, duration, realtime and the
cpu/memory percentage columns. -/
theorem C1_trace_resource_fields (cpus time disk mem : Option String)
    (wid : Option String) :
    (cpus.bind pyInt? = none → rowToRecord (mkItem cpus time disk mem) wid = none) ∧
    (∀ t, time = some t → duration_to_seconds t = none →
      rowToRecord (mkItem cpus time disk mem) wid = none) ∧
    (∀ z q, cpus.bind pyInt? = some z →
      duration_to_seconds (time.getD "0s") = some q →
      ∃ rec, rowToRecord (mkItem cpus time disk mem) wid = some rec ∧
        rec.storage_requested = parse_memory_value (disk.getD "0 MB") ∧
        rec.memory_requested = parse_memory_value (mem.getD "0 MB") ∧
        rec.cpus_requested = z ∧ rec.time_requested = q) := by
  obtain ⟨st, hst⟩ : ∃ x, pyStrptimeF "2024-01-02 03:04:05.678" = some x := ⟨_, rfl⟩
  obtain ⟨du, hdu⟩ : ∃ x, duration_to_seconds "1m" = some x := ⟨_, rfl⟩
  obtain ⟨rt, hrt⟩ : ∃ x, pyFloat? (pyRstrip 's' "30s") = some x := ⟨_, rfl⟩
  obtain ⟨pc, hpc⟩ : ∃ x, pyFloat? (pyRstrip '%' "50.0%") = some x := ⟨_, rfl⟩
  obtain ⟨pm, hpm⟩ : ∃ x, pyFloat? (pyRstrip '%' "10.0%") = some x := ⟨_, rfl⟩
  have hex : pyInt? "0" = some 0 := rfl
  refine ⟨?_, ?_, ?_⟩
  · intro hc
    cases cpus with
    | none => simp [rowToRecord, obind, mkItem, hst, hdu]
    | some c =>
      simp only [Option.some_bind] at hc
      simp [rowToRecord, obind, mkItem, hst, hdu, hc]
  · intro t ht hdt
    subst ht
    simp [rowToRecord, obind, mkItem, hst, hdu, hdt]
  · intro z q hz hq
    cases cpus with
    | none => cases hz
    | some c =>
      simp only [Option.some_bind] at hz
      have h : rowToRecord (mkItem (some c) time disk mem) wid = some
          { id := some "aa/bbbbbb"
            workflow_execution_id := wid
            process_name := none
            module_name := none
            container_name := none
            final_status := none
            exit_code := 0
            start_time := st
            duration := du
            cpus_requested := z
            time_requested := q
            storage_requested := parse_memory_value (disk.getD "0 MB")
            memory_requested := parse_memory_value (mem.getD "0 MB")
            realtime := rt
            queue_name := none
            percent_cpu := pc
            percent_memory := pm
            peak_rss := none
            peak_vmem := none
            read_char := none
            write_char := none } := by
        simp [rowToRecord, obind, mkItem, hz, hq, hst, hdu, hrt, hpc, hpm, hex]
      exact ⟨_, h, rfl, rfl, rfl, rfl⟩

/-- Witness for the amended C1: a malformed `cpus` aborts the row,
while with well-formed `cpus` a malformed `disk` degrades to an absent
storage value and the row is produced. -/
theorem C1_trace_resource_fields_witness :
    rowToRecord (mkItem (some "abc") none none none) (some "w") = none ∧
    ∃ rec, rowToRecord (mkItem (some "4") none (some "bogus") none) (some "w") = some rec ∧
      rec.storage_requested = none := by
  obtain ⟨q0, hq⟩ : ∃ x, duration_to_seconds ((none : Option String).getD "0s") = some x :=
    ⟨_, rfl⟩
  obtain ⟨rec, hrec, hs, -, -, -⟩ :=
    (C1_trace_resource_fields (some "4") none (some "bogus") none (some "w")).2.2 4 q0 rfl hq
  refine ⟨(C1_trace_resource_fields (some "abc") none none none (some "w")).1 rfl, rec, hrec, ?_⟩
  rw [hs]
  rfl

/-! ## The submission driver (`submit`) -/

/-- One HTTP POST issued by `submit`, by endpoint and payload. -/
inductive Submission
  | workflow (payload : Option WorkflowData)
  | process (p : ProcRecord)
  | inputFile (e : ProvEntry)
  | outputFile (e : ProvEntry)
deriving DecidableEq

/-- How a run of `submit` ends: all posts succeeded, the driver
returned after a failed post, or an uncaught exception. -/
inductive Phase
  | completed
  | aborted
  | crashed
deriving DecidableEq

/-- The observable behaviour of one `submit` run: the submissions
issued, in order, and how the run ended. -/
structure SubmitOutcome where
  sent : List Submission
  phase : Phase
deriving DecidableEq

/-- One submission loop of `submit`: post each entry in order (the
server's verdict on the k-th request overall is `srv k`), stopping
after the first non-200 response.  Returns the submissions so far, the
next request index, and whether the loop ran to completion. -/
def postLoop {α : Type} (mk : α → Submission) (srv : Nat → Bool) :
    List α → Nat → List Submission → List Submission × Nat × Bool
  | [], k, acc => (acc, k, true)
  | e :: es, k, acc =>
    if srv k then postLoop mk srv es (k + 1) (acc ++ [mk e])
    else (acc ++ [mk e], k + 1, false)

/-- The `submit` command of `src/client.py`, parametric in its external
collaborators: `ret`/`stdout` from the `nextflow log` subprocess,
`traceLines` the lines of the trace file named in the log file (`none`
when `get_trace_filepath` finds no `trace file:` line), the provenance
externals, the parsed BCO document, and the server's per-request
verdict `srv` (`true` = HTTP 200).  It posts the workflow record (an
empty payload when log extraction returned `None`), returns on a
failed post; then crashes on `workflow_execution_data["id"]` if the
log extraction returned `None`, crashes on `open(None)` if no trace
path was found, extracts and posts the process records, then the
provenance input records, then the output records, returning at the
first failed post. -/
def submit (ret : Int) (stdout : String) (traceLines : Option (List String))
    (resolve : String → String) (fs : String → FsObj)
    (fileHash dirHash : String → String) (bco : BcoData) (srv : Nat → Bool) :
    SubmitOutcome :=
  match get_nextflow_log ret stdout bco with
  | .error _ => ⟨[], .crashed⟩
  | .ok wed =>
    let s0 : List Submission := [.workflow wed]
    if srv 0 then
      match wed with
      | none => ⟨s0, .crashed⟩
      | some w =>
        match traceLines with
        | none => ⟨s0, .crashed⟩
        | some lines =>
          match get_process_execution_data lines w.id with
          | none => ⟨s0, .crashed⟩
          | some procs =>
            let r1 := postLoop Submission.process srv procs 1 s0
            if r1.2.2 then
              let io := get_provenance_data resolve fs fileHash dirHash bco
              let r2 := postLoop Submission.inputFile srv io.1 r1.2.1 r1.1
              if r2.2.2 then
                let r3 := postLoop Submission.outputFile srv io.2 r2.2.1 r2.1
                if r3.2.2 then ⟨r3.1, .completed⟩ else ⟨r3.1, .aborted⟩
              else ⟨r2.1, .aborted⟩
            else ⟨r1.1, .aborted⟩
    else ⟨s0, .aborted⟩

/-- A loop whose every request the server accepts posts every entry
and reports success. -/
theorem postLoop_success {α : Type} (mk : α → Submission) (srv : Nat → Bool) :
    ∀ (es : List α) (k : Nat) (acc : List Submission),
      (∀ i, i < es.length → srv (k + i) = true) →
      postLoop mk srv es k acc = (acc ++ es.map mk, k + es.length, true) := by
  intro es
  induction es with
  | nil =>
    intro k acc _
    simp [postLoop]
  | cons e es ih =>
    intro k acc hsrv
    have h0 : srv k = true := by simpa using hsrv 0 (by simp)
    have hrest : ∀ i, i < es.length → srv (k + 1 + i) = true := by
      intro i hi
      have := hsrv (i + 1) (by simpa using Nat.succ_lt_succ hi)
      simpa [Nat.add_assoc, Nat.add_comm 1 i] using this
    simp only [postLoop, h0, if_true, ih (k + 1) (acc ++ [mk e]) hrest]
    refine congrArg₂ _ ?_ (congrArg₂ _ ?_ rfl)
    · simp
    · simp [List.length_cons]
      omega

/-- A loop whose requests succeed up to the `j`-th entry and fail at
it stops there, having posted entries `0..j`. -/
theorem postLoop_fail {α : Type} (mk : α → Submission) (srv : Nat → Bool) :
    ∀ (es : List α) (j k : Nat) (acc : List Submission),
      j < es.length → (∀ i, i < j → srv (k + i) = true) → srv (k + j) = false →
      postLoop mk srv es k acc =
        (acc ++ (es.take (j + 1)).map mk, k + j + 1, false) := by
  intro es
  induction es with
  | nil =>
    intro j k acc hj
    exact absurd hj (Nat.not_lt_zero j)
  | cons e es ih =>
    intro j k acc hj hbefore hfail
    cases j with
    | zero =>
      have h0 : srv k = false := by simpa using hfail
      simp [postLoop, h0]
    | succ j' =>
      have h0 : srv k = true := by simpa using hbefore 0 (Nat.succ_pos j')
      have hbefore' : ∀ i, i < j' → srv (k + 1 + i) = true := by
        intro i hi
        have := hbefore (i + 1) (Nat.succ_lt_succ hi)
        simpa [Nat.add_assoc, Nat.add_comm 1 i] using this
      have hfail' : srv (k + 1 + j') = false := by
        simpa [Nat.add_assoc, Nat.add_comm 1 j'] using hfail
      have hj' : j' < es.length := by simpa using Nat.lt_of_succ_lt_succ hj
      simp only [postLoop, h0, if_true, ih j' (k + 1) (acc ++ [mk e]) hj' hbefore' hfail']
      refine congrArg₂ _ ?_ (congrArg₂ _ ?_ rfl)
      · simp [List.take_succ_cons]
      · omega

/-- **C2.** When every post succeeds, `submit` issues exactly one
workflow submission, then one process submission per trace data row,
then one input-file submission per declared input URI, then one
output-file submission per declared output URI, in that relative
order, and completes. -/
theorem C2_submit_counts (ret : Int) (stdout : String) (l0 : String)
    (rest : List String) (resolve : String → String) (fs : String → FsObj)
    (fileHash dirHash : String → String) (bco : BcoData) (srv : Nat → Bool)
    (w : WorkflowData) (procs : List ProcRecord)
    (hlog : get_nextflow_log ret stdout bco = .ok (some w))
    (hproc : get_process_execution_data (l0 :: rest) w.id = some procs)
    (hsrv : ∀ i, srv i = true) :
    submit ret stdout (some (l0 :: rest)) resolve fs fileHash dirHash bco srv =
      ⟨[Submission.workflow (some w)] ++ procs.map Submission.process ++
        (get_provenance_data resolve fs fileHash dirHash bco).1.map Submission.inputFile ++
        (get_provenance_data resolve fs fileHash dirHash bco).2.map Submission.outputFile,
        Phase.completed⟩ ∧
    procs.length = rest.length ∧
    (get_provenance_data resolve fs fileHash dirHash bco).1.length =
      (bco.pipeline_steps.map (fun st => st.input_list.length)).sum ∧
    (get_provenance_data resolve fs fileHash dirHash bco).2.length =
      (bco.pipeline_steps.map (fun st => st.output_list.length)).sum := by
  have hlen : procs.length = rest.length := by
    simp only [get_process_execution_data] at hproc
    exact mapOpt_length hproc
  refine ⟨?_, hlen, (get_provenance_data_lengths resolve fs fileHash dirHash bco).1,
    (get_provenance_data_lengths resolve fs fileHash dirHash bco).2⟩
  have e1 := postLoop_success Submission.process srv procs 1
    [Submission.workflow (some w)] (fun i _ => hsrv (1 + i))
  have e2 := postLoop_success Submission.inputFile srv
    (get_provenance_data resolve fs fileHash dirHash bco).1 (1 + procs.length)
    ([Submission.workflow (some w)] ++ procs.map Submission.process)
    (fun i _ => hsrv (1 + procs.length + i))
  have e3 := postLoop_success Submission.outputFile srv
    (get_provenance_data resolve fs fileHash dirHash bco).2
    (1 + procs.length + (get_provenance_data resolve fs fileHash dirHash bco).1.length)
    (([Submission.workflow (some w)] ++ procs.map Submission.process) ++
      (get_provenance_data resolve fs fileHash dirHash bco).1.map Submission.inputFile)
    (fun i _ => hsrv _)
  unfold submit
  rw [hlog]
  simp only [hsrv 0, if_true, hproc, e1, e2, e3]

/-- Witness for C2: the end-to-end scenario of the spec — a three-row
trace file and a two-step document declaring one input and one output
file each — yields 1 + 3 + 2 + 2 = 8 submissions and completes. -/
theorem C2_submit_counts_witness :
    (submit 0
      "SESSION ID\tTIMESTAMP\tDURATION\tRUN NAME\tREVISION ID\tSTATUS\nsid\t2024-01-02 03:04:05\t1m\trun\trev\tOK"
      (some
        ["hash\tprocess\texit\tstart\tduration\tcpus\ttime\tdisk\tmemory\trealtime\t%cpu\t%mem",
         "aa/bbbbbb\tp\t0\t2024-01-02 03:04:05.678\t1m\t4\t1h\t1 GB\t2 GB\t30s\t50.0%\t10.0%",
         "aa/bbbbbb\tp\t0\t2024-01-02 03:04:05.678\t1m\t4\t1h\t1 GB\t2 GB\t30s\t50.0%\t10.0%",
         "aa/bbbbbb\tp\t0\t2024-01-02 03:04:05.678\t1m\t4\t1h\t1 GB\t2 GB\t30s\t50.0%\t10.0%"])
      id (fun _ => FsObj.missing) id id
      ⟨[], [⟨"abcdefgh01", [⟨"u1"⟩], [⟨"v1"⟩]⟩, ⟨"ijklmnop02", [⟨"u2"⟩], [⟨"v2"⟩]⟩]⟩
      (fun _ => true)).phase = Phase.completed ∧
    (submit 0
      "SESSION ID\tTIMESTAMP\tDURATION\tRUN NAME\tREVISION ID\tSTATUS\nsid\t2024-01-02 03:04:05\t1m\trun\trev\tOK"
      (some
        ["hash\tprocess\texit\tstart\tduration\tcpus\ttime\tdisk\tmemory\trealtime\t%cpu\t%mem",
         "aa/bbbbbb\tp\t0\t2024-01-02 03:04:05.678\t1m\t4\t1h\t1 GB\t2 GB\t30s\t50.0%\t10.0%",
         "aa/bbbbbb\tp\t0\t2024-01-02 03:04:05.678\t1m\t4\t1h\t1 GB\t2 GB\t30s\t50.0%\t10.0%",
         "aa/bbbbbb\tp\t0\t2024-01-02 03:04:05.678\t1m\t4\t1h\t1 GB\t2 GB\t30s\t50.0%\t10.0%"])
      id (fun _ => FsObj.missing) id id
      ⟨[], [⟨"abcdefgh01", [⟨"u1"⟩], [⟨"v1"⟩]⟩, ⟨"ijklmnop02", [⟨"u2"⟩], [⟨"v2"⟩]⟩]⟩
      (fun _ => true)).sent.length = 8 := by
  obtain ⟨w0, hw⟩ : ∃ x,
      get_nextflow_log 0
        "SESSION ID\tTIMESTAMP\tDURATION\tRUN NAME\tREVISION ID\tSTATUS\nsid\t2024-01-02 03:04:05\t1m\trun\trev\tOK"
        ⟨[], [⟨"abcdefgh01", [⟨"u1"⟩], [⟨"v1"⟩]⟩, ⟨"ijklmnop02", [⟨"u2"⟩], [⟨"v2"⟩]⟩]⟩ =
        .ok (some x) := ⟨_, rfl⟩
  obtain ⟨ps, hp⟩ : ∃ x,
      get_process_execution_data
        ["hash\tprocess\texit\tstart\tduration\tcpus\ttime\tdisk\tmemory\trealtime\t%cpu\t%mem",
         "aa/bbbbbb\tp\t0\t2024-01-02 03:04:05.678\t1m\t4\t1h\t1 GB\t2 GB\t30s\t50.0%\t10.0%",
         "aa/bbbbbb\tp\t0\t2024-01-02 03:04:05.678\t1m\t4\t1h\t1 GB\t2 GB\t30s\t50.0%\t10.0%",
         "aa/bbbbbb\tp\t0\t2024-01-02 03:04:05.678\t1m\t4\t1h\t1 GB\t2 GB\t30s\t50.0%\t10.0%"]
        w0.id = some x := ⟨_, rfl⟩
  have h := C2_submit_counts 0
    "SESSION ID\tTIMESTAMP\tDURATION\tRUN NAME\tREVISION ID\tSTATUS\nsid\t2024-01-02 03:04:05\t1m\trun\trev\tOK"
    "hash\tprocess\texit\tstart\tduration\tcpus\ttime\tdisk\tmemory\trealtime\t%cpu\t%mem"
    ["aa/bbbbbb\tp\t0\t2024-01-02 03:04:05.678\t1m\t4\t1h\t1 GB\t2 GB\t30s\t50.0%\t10.0%",
     "aa/bbbbbb\tp\t0\t2024-01-02 03:04:05.678\t1m\t4\t1h\t1 GB\t2 GB\t30s\t50.0%\t10.0%",
     "aa/bbbbbb\tp\t0\t2024-01-02 03:04:05.678\t1m\t4\t1h\t1 GB\t2 GB\t30s\t50.0%\t10.0%"]
    id (fun _ => FsObj.missing) id id
    ⟨[], [⟨"abcdefgh01", [⟨"u1"⟩], [⟨"v1"⟩]⟩, ⟨"ijklmnop02", [⟨"u2"⟩], [⟨"v2"⟩]⟩]⟩
    (fun _ => true) w0 ps hw hp (fun _ => rfl)
  constructor
  · rw [h.1]
  · rw [h.1]
    simp only [List.length_append, List.length_map, List.length_cons, List.length_nil,
      h.2.1]
    rfl

/-- C7 counterexample: a nonzero `nextflow log` return code does not
abort the submission before any post — the driver still issues one
workflow submission carrying the absent record, then crashes reading
`workflow_execution_data["id"]`. -/
theorem C7_counterexample :
    submit 1 "" (some []) id (fun _ => FsObj.missing) id id ⟨[], []⟩ (fun _ => true) =
      ⟨[Submission.workflow none], Phase.crashed⟩ := rfl

/-- **C7 (amended).** When the `nextflow log` command exits with a
nonzero status, `get_nextflow_log` does not raise: it prints an error
and returns the absent record (`None`).  `submit` then still posts one
workflow submission with the absent payload; afterwards it returns if
that post failed, and otherwise crashes on
`workflow_execution_data["id"]`.  No process or file record is ever
posted, but the run is not cleanly aborted before the first post. -/
theorem C7_log_failure (ret : Int) (stdout : String) (traceLines : Option (List String))
    (resolve : String → String) (fs : String → FsObj)
    (fileHash dirHash : String → String) (bco : BcoData) (srv : Nat → Bool)
    (hret : ret ≠ 0) :
    get_nextflow_log ret stdout bco = .ok none ∧
    (submit ret stdout traceLines resolve fs fileHash dirHash bco srv).sent =
      [Submission.workflow none] ∧
    (submit ret stdout traceLines resolve fs fileHash dirHash bco srv).phase =
      (if srv 0 then Phase.crashed else Phase.aborted) := by
  have hlog : get_nextflow_log ret stdout bco = .ok none := by
    unfold get_nextflow_log
    rw [if_pos hret]
  refine ⟨hlog, ?_, ?_⟩ <;>
  · unfold submit
    rw [hlog]
    by_cases h0 : srv 0 <;> simp [h0]

/-- Witness for the amended C7: return code 1 with an accepting server
posts the absent workflow record and crashes. -/
theorem C7_log_failure_witness :
    get_nextflow_log 1 "out" ⟨[], []⟩ = .ok none ∧
    (submit 1 "out" none id (fun _ => FsObj.missing) id id ⟨[], []⟩
      (fun _ => true)).sent = [Submission.workflow none] ∧
    (submit 1 "out" none id (fun _ => FsObj.missing) id id ⟨[], []⟩
      (fun _ => true)).phase = (if (fun _ : Nat => true) 0 then Phase.crashed
        else Phase.aborted) :=
  C7_log_failure 1 "out" none id (fun _ => FsObj.missing) id id ⟨[], []⟩
    (fun _ => true) (by decide)

/-- **C10.** `submit` aborts on the first failed post uniformly: when
log and trace extraction succeed and the server rejects the `k`-th
request (accepting all before it), the submissions issued are exactly
the first `k + 1` of the full workflow–process–input–output sequence —
the `k` accepted ones remain issued, the failed one is the last, and
nothing of any kind follows it. -/
theorem C10_abort_on_first_failure (ret : Int) (stdout : String) (lines : List String)
    (resolve : String → String) (fs : String → FsObj)
    (fileHash dirHash : String → String) (bco : BcoData) (srv : Nat → Bool)
    (w : WorkflowData) (procs : List ProcRecord) (k : Nat)
    (hlog : get_nextflow_log ret stdout bco = .ok (some w))
    (hproc : get_process_execution_data lines w.id = some procs)
    (hk : k < 1 + procs.length +
      (get_provenance_data resolve fs fileHash dirHash bco).1.length +
      (get_provenance_data resolve fs fileHash dirHash bco).2.length)
    (hbefore : ∀ i, i < k → srv i = true) (hfail : srv k = false) :
    submit ret stdout (some lines) resolve fs fileHash dirHash bco srv =
      ⟨([Submission.workflow (some w)] ++ procs.map Submission.process ++
        (get_provenance_data resolve fs fileHash dirHash bco).1.map Submission.inputFile ++
        (get_provenance_data resolve fs fileHash dirHash bco).2.map Submission.outputFile).take
          (k + 1),
        Phase.aborted⟩ := by
  rcases Nat.eq_zero_or_pos k with rfl | hkpos
  · have ht : ([Submission.workflow (some w)] ++ procs.map Submission.process ++
        (get_provenance_data resolve fs fileHash dirHash bco).1.map Submission.inputFile ++
        (get_provenance_data resolve fs fileHash dirHash bco).2.map Submission.outputFile).take
          (0 + 1) =
        [Submission.workflow (some w)] := by
      rw [List.append_assoc, List.append_assoc,
        List.take_append_of_le_length (by simp)]
      rfl
    rw [ht]
    unfold submit
    rw [hlog]
    simp [hfail]
  · have h0 : srv 0 = true := hbefore 0 hkpos
    by_cases hA : k - 1 < procs.length
    · have hb1 : ∀ i, i < k - 1 → srv (1 + i) = true := fun i hi => hbefore (1 + i) (by omega)
      have hf1 : srv (1 + (k - 1)) = false := by
        rw [show 1 + (k - 1) = k from by omega]
        exact hfail
      have e1 := postLoop_fail Submission.process srv procs (k - 1) 1
        [Submission.workflow (some w)] hA hb1 hf1
      have ht : ([Submission.workflow (some w)] ++ procs.map Submission.process ++
          (get_provenance_data resolve fs fileHash dirHash bco).1.map Submission.inputFile ++
          (get_provenance_data resolve fs fileHash dirHash bco).2.map Submission.outputFile).take
            (k + 1) =
          [Submission.workflow (some w)] ++ (procs.take (k - 1 + 1)).map Submission.process := by
        rw [List.append_assoc, List.append_assoc, List.take_append_eq_append_take,
          List.take_of_length_le (by simp only [List.length_append, List.length_map,
            List.length_cons, List.length_nil]; omega)]
        have hk1 : k + 1 - ([Submission.workflow (some w)] : List Submission).length = k := by
          simp
        rw [hk1, List.take_append_of_le_length (by simp only [List.length_append,
            List.length_map, List.length_cons, List.length_nil]; omega), List.map_take,
          show k - 1 + 1 = k from by omega]
      rw [ht]
      unfold submit
      rw [hlog]
      simp only [h0, if_true, hproc, e1]
      simp
    · by_cases hB : k - 1 - procs.length <
          (get_provenance_data resolve fs fileHash dirHash bco).1.length
      · have e1 := postLoop_success Submission.process srv procs 1
          [Submission.workflow (some w)] (fun i hi => hbefore (1 + i) (by omega))
        have hb2 : ∀ i, i < k - 1 - procs.length →
            srv (1 + procs.length + i) = true := fun i hi => hbefore _ (by omega)
        have hf2 : srv (1 + procs.length + (k - 1 - procs.length)) = false := by
          rw [show 1 + procs.length + (k - 1 - procs.length) = k from by omega]
          exact hfail
        have e2 := postLoop_fail Submission.inputFile srv
          (get_provenance_data resolve fs fileHash dirHash bco).1 (k - 1 - procs.length)
          (1 + procs.length)
          ([Submission.workflow (some w)] ++ procs.map Submission.process) hB hb2 hf2
        have ht : ([Submission.workflow (some w)] ++ procs.map Submission.process ++
            (get_provenance_data resolve fs fileHash dirHash bco).1.map Submission.inputFile ++
            (get_provenance_data resolve fs fileHash dirHash bco).2.map Submission.outputFile).take
              (k + 1) =
            ([Submission.workflow (some w)] ++ procs.map Submission.process) ++
              ((get_provenance_data resolve fs fileHash dirHash bco).1.take
                (k - 1 - procs.length + 1)).map Submission.inputFile := by
          rw [List.take_append_of_le_length (by simp only [List.length_append,
              List.length_map, List.length_cons, List.length_nil]; omega),
            List.take_append_eq_append_take,
            List.take_of_length_le (by simp only [List.length_append, List.length_map,
              List.length_cons, List.length_nil]; omega), List.map_take]
          congr 2
          simp only [List.length_append, List.length_map, List.length_cons, List.length_nil]
          omega
        rw [ht]
        unfold submit
        rw [hlog]
        simp only [h0, if_true, hproc, e1, e2]
        simp
      · have e1 := postLoop_success Submission.process srv procs 1
          [Submission.workflow (some w)] (fun i hi => hbefore (1 + i) (by omega))
        have e2 := postLoop_success Submission.inputFile srv
          (get_provenance_data resolve fs fileHash dirHash bco).1 (1 + procs.length)
          ([Submission.workflow (some w)] ++ procs.map Submission.process)
          (fun i hi => hbefore _ (by omega))
        have hb3 : ∀ i, i < k - 1 - procs.length -
            (get_provenance_data resolve fs fileHash dirHash bco).1.length →
            srv (1 + procs.length +
              (get_provenance_data resolve fs fileHash dirHash bco).1.length + i) = true :=
          fun i hi => hbefore _ (by omega)
        have hf3 : srv (1 + procs.length +
            (get_provenance_data resolve fs fileHash dirHash bco).1.length +
            (k - 1 - procs.length -
              (get_provenance_data resolve fs fileHash dirHash bco).1.length)) = false := by
          rw [show 1 + procs.length +
              (get_provenance_data resolve fs fileHash dirHash bco).1.length +
              (k - 1 - procs.length -
                (get_provenance_data resolve fs fileHash dirHash bco).1.length) = k
            from by omega]
          exact hfail
        have e3 := postLoop_fail Submission.outputFile srv
          (get_provenance_data resolve fs fileHash dirHash bco).2
          (k - 1 - procs.length -
            (get_provenance_data resolve fs fileHash dirHash bco).1.length)
          (1 + procs.length + (get_provenance_data resolve fs fileHash dirHash bco).1.length)
          (([Submission.workflow (some w)] ++ procs.map Submission.process) ++
            (get_provenance_data resolve fs fileHash dirHash bco).1.map Submission.inputFile)
          (by omega) hb3 hf3
        have ht : ([Submission.workflow (some w)] ++ procs.map Submission.process ++
            (get_provenance_data resolve fs fileHash dirHash bco).1.map Submission.inputFile ++
            (get_provenance_data resolve fs fileHash dirHash bco).2.map Submission.outputFile).take
              (k + 1) =
            (([Submission.workflow (some w)] ++ procs.map Submission.process) ++
              (get_provenance_data resolve fs fileHash dirHash bco).1.map Submission.inputFile) ++
              ((get_provenance_data resolve fs fileHash dirHash bco).2.take
                (k - 1 - procs.length -
                  (get_provenance_data resolve fs fileHash dirHash bco).1.length + 1)).map
                Submission.outputFile := by
          rw [List.take_append_eq_append_take,
            List.take_of_length_le (by simp only [List.length_append, List.length_map,
              List.length_cons, List.length_nil]; omega), List.map_take]
          congr 2
          simp only [List.length_append, List.length_map, List.length_cons, List.length_nil]
          omega
        rw [ht]
        unfold submit
        rw [hlog]
        simp only [h0, if_true, hproc, e1, e2, e3]
        simp

/-- Witness for C10: the server accepts the workflow post and rejects
the first process post; exactly those two submissions are issued and
the run aborts. -/
theorem C10_abort_on_first_failure_witness :
    (submit 0
      "SESSION ID\tTIMESTAMP\tDURATION\tRUN NAME\tREVISION ID\tSTATUS\nsid\t2024-01-02 03:04:05\t1m\trun\trev\tOK"
      (some
        ["hash\tprocess\texit\tstart\tduration\tcpus\ttime\tdisk\tmemory\trealtime\t%cpu\t%mem",
         "aa/bbbbbb\tp\t0\t2024-01-02 03:04:05.678\t1m\t4\t1h\t1 GB\t2 GB\t30s\t50.0%\t10.0%"])
      id (fun _ => FsObj.missing) id id ⟨[], []⟩ (fun i => i == 0)).phase =
      Phase.aborted ∧
    (submit 0
      "SESSION ID\tTIMESTAMP\tDURATION\tRUN NAME\tREVISION ID\tSTATUS\nsid\t2024-01-02 03:04:05\t1m\trun\trev\tOK"
      (some
        ["hash\tprocess\texit\tstart\tduration\tcpus\ttime\tdisk\tmemory\trealtime\t%cpu\t%mem",
         "aa/bbbbbb\tp\t0\t2024-01-02 03:04:05.678\t1m\t4\t1h\t1 GB\t2 GB\t30s\t50.0%\t10.0%"])
      id (fun _ => FsObj.missing) id id ⟨[], []⟩ (fun i => i == 0)).sent.length = 2 := by
  obtain ⟨w0, hw⟩ : ∃ x,
      get_nextflow_log 0
        "SESSION ID\tTIMESTAMP\tDURATION\tRUN NAME\tREVISION ID\tSTATUS\nsid\t2024-01-02 03:04:05\t1m\trun\trev\tOK"
        ⟨[], []⟩ = .ok (some x) := ⟨_, rfl⟩
  obtain ⟨ps, hp⟩ : ∃ x,
      get_process_execution_data
        ["hash\tprocess\texit\tstart\tduration\tcpus\ttime\tdisk\tmemory\trealtime\t%cpu\t%mem",
         "aa/bbbbbb\tp\t0\t2024-01-02 03:04:05.678\t1m\t4\t1h\t1 GB\t2 GB\t30s\t50.0%\t10.0%"]
        w0.id = some x := ⟨_, rfl⟩
  have hps : ps.length = 1 := by
    simp only [get_process_execution_data] at hp
    exact mapOpt_length hp
  have h := C10_abort_on_first_failure 0
    "SESSION ID\tTIMESTAMP\tDURATION\tRUN NAME\tREVISION ID\tSTATUS\nsid\t2024-01-02 03:04:05\t1m\trun\trev\tOK"
    ["hash\tprocess\texit\tstart\tduration\tcpus\ttime\tdisk\tmemory\trealtime\t%cpu\t%mem",
     "aa/bbbbbb\tp\t0\t2024-01-02 03:04:05.678\t1m\t4\t1h\t1 GB\t2 GB\t30s\t50.0%\t10.0%"]
    id (fun _ => FsObj.missing) id id ⟨[], []⟩ (fun i => i == 0) w0 ps 1 hw hp
    (by simp only [get_provenance_data, provStep, List.foldl_nil]; omega)
    (fun i hi => by
      have hi0 : i = 0 := by omega
      subst hi0
      rfl)
    rfl
  constructor
  · rw [h]
  · rw [h]
    simp only [List.length_take, List.length_append, List.length_map, List.length_cons,
      List.length_nil, hps]
    rfl

end GwRepo
